import Mathlib

/-!
Verification of the metadata-extraction core of `src/index.ts` (notion-mcp-server).

The TypeScript functions are shallowly embedded as executable Lean definitions.
DOM queries (cheerio selectors) are embedded as fields of an explicit document
environment: each field records the text/attribute results the source code reads
from the parsed page.  Host-library behaviour is modelled where the source calls
into the JavaScript runtime and is documented at the definition that models it:

* `new Date(string)` is modelled by `jsNewDate`, which implements the ECMA-262
  Date Time String Format restricted to its date-only forms (`YYYY`, `YYYY-MM`,
  `YYYY-MM-DD`).  Strings outside that format are implementation-defined in
  ECMA-262 and are modelled as unparseable.
* `new URL(url).hostname` is embedded as an environment field (`urlHost`),
  `none` standing for a URL on which the constructor throws.
* JavaScript regular expressions built from literal patterns are implemented
  directly as character-list scanners with the same backtracking behaviour on
  the character classes they use.  The author validator's dynamically built
  regex interpolates candidate tokens unescaped; the model covers tokens made
  of literal characters and the `.` wildcard, and theorems quantifying over
  tokens exclude the remaining regex syntax characters by hypothesis (see
  `isRegexMeta`).
* `String.prototype` operations (`toLowerCase`, `trim`, `includes`, `split`,
  `substring`, `padStart`) are implemented over `List Char`; case mapping is
  the ASCII mapping, which is what the inputs exercised here use.
-/

namespace NotionMeta

/-- JavaScript whitespace (the subset of `\s` relevant to the inputs verified
here): space, tab, LF, CR, VT, FF. -/
def isWsChar (c : Char) : Bool :=
  c = ' ' || c = '\t' || c = '\n' || c = '\r' || c = '\x0b' || c = '\x0c'

/-- ASCII lower-casing, the fragment of `String.prototype.toLowerCase` the
embedded code relies on. -/
def lowerChar (c : Char) : Char :=
  if 65 ≤ c.toNat ∧ c.toNat ≤ 90 then Char.ofNat (c.toNat + 32) else c

/-- ASCII upper-casing (for `String.prototype.toUpperCase` on one character). -/
def upperChar (c : Char) : Char :=
  if 97 ≤ c.toNat ∧ c.toNat ≤ 122 then Char.ofNat (c.toNat - 32) else c

/-- `s.toLowerCase()`. -/
def lowerStr (s : String) : String := String.mk (s.data.map lowerChar)

/-- `s.trim()` on a character list (strip leading and trailing whitespace). -/
def trimList (l : List Char) : List Char :=
  ((l.dropWhile isWsChar).reverse.dropWhile isWsChar).reverse

/-- `s.trim()`. -/
def trimStr (s : String) : String := String.mk (trimList s.data)

/-- Does `n` occur at the head of `l`? (prefix test on character lists). -/
def headMatches : List Char → List Char → Bool
  | [], _ => true
  | _ :: _, [] => false
  | a :: as, b :: bs => a = b && headMatches as bs

/-- `haystack.includes(needle)` (substring containment, case sensitive). -/
def containsSub (n : List Char) : List Char → Bool
  | [] => headMatches n []
  | c :: rest => headMatches n (c :: rest) || containsSub n rest

/-- `haystack.includes(needle)` on strings. -/
def containsStr (s sub : String) : Bool := containsSub sub.data s.data

/-- Consume `pat` (given lower-case) at the head of `l`, comparing
case-insensitively; return the rest on success.  This is how alternatives of a
case-insensitive JavaScript regex consume literal text. -/
def eatCI : List Char → List Char → Option (List Char)
  | [], l => some l
  | _ :: _, [] => none
  | p :: ps, c :: cs => if lowerChar c = p then eatCI ps cs else none

/-- First-success choice, the shape of regex alternation. -/
def tryOr (a b : Option α) : Option α :=
  match a with
  | some x => some x
  | none => b

/-- Run a position matcher at every start position, left to right: the scan a
JavaScript regex performs over its subject. -/
def scanList (f : List Char → Option α) : List Char → Option α
  | [] => f []
  | c :: rest => tryOr (f (c :: rest)) (scanList f rest)

/-- Numeric value of a decimal digit character. -/
def digitVal (c : Char) : Nat := c.toNat - 48

/-- Consume exactly `n` decimal digits, returning their value (`parseInt` of the
digit run) and the rest. -/
def takeDigitsAcc : Nat → Nat → List Char → Option (Nat × List Char)
  | 0, acc, l => some (acc, l)
  | _ + 1, _, [] => none
  | n + 1, acc, c :: rest =>
    if c.isDigit then takeDigitsAcc n (acc * 10 + digitVal c) rest else none

/-! ## Date Parser (`isValidDate`, `parseLooseDate`, src/index.ts 1797-1900) -/

/-- The calendar date a successful `new Date(string)` parse denotes. -/
structure JsDate where
  year : Nat
  month : Nat
  day : Nat
deriving DecidableEq

def isLeapYear (y : Nat) : Bool := (y % 4 == 0 && y % 100 != 0) || y % 400 == 0

def daysInMonth (y m : Nat) : Nat :=
  if m == 2 then (if isLeapYear y then 29 else 28)
  else if m == 4 || m == 6 || m == 9 || m == 11 then 30
  else 31

/-- Modelled host behaviour: `new Date(string)`, restricted to the date-only
forms of the ECMA-262 Date Time String Format (`YYYY`, `YYYY-MM`,
`YYYY-MM-DD`), with calendar validation (month 01-12, day within the month).
Parsing of any other string is implementation-defined in ECMA-262 and is
modelled as failure (`none`); strings with a time component are likewise not
modelled (no verified claim exercises them).  Date-only forms denote UTC, so
`getFullYear` of a successful parse is the `year` field (the model is
timezone-free). -/
def jsNewDate (s : String) : Option JsDate :=
  match takeDigitsAcc 4 0 s.data with
  | none => none
  | some (y, rest) =>
    match rest with
    | [] => some ⟨y, 1, 1⟩
    | '-' :: rest2 =>
      match takeDigitsAcc 2 0 rest2 with
      | none => none
      | some (m, rest3) =>
        if m < 1 || 12 < m then none
        else
          match rest3 with
          | [] => some ⟨y, m, 1⟩
          | '-' :: rest4 =>
            match takeDigitsAcc 2 0 rest4 with
            | none => none
            | some (d, rest5) =>
              if rest5.isEmpty && 1 ≤ d && d ≤ daysInMonth y m then some ⟨y, m, d⟩
              else none
          | _ => none
    | _ => none

/-- `isValidDate` (src/index.ts 1797-1807): parses with `new Date` and checks
the year lies in [1995, current year].  The current year
(`new Date().getFullYear()`) is passed explicitly as `currentYear`. -/
def isValidDate (currentYear : Nat) (dateStr : String) : Bool :=
  match jsNewDate dateStr with
  | none => false
  | some d => decide (1995 ≤ d.year) && decide (d.year ≤ currentYear)

def monthNames : List String :=
  ["january", "february", "march", "april", "may", "june",
   "july", "august", "september", "october", "november", "december"]

def shortMonthNames : List String :=
  ["jan", "feb", "mar", "apr", "may", "jun",
   "jul", "aug", "sep", "oct", "nov", "dec"]

/-- The month-name alternation of `parseLooseDate`'s patterns 1 and 2:
full names first, then the three-letter abbreviations, in source order. -/
def monthAlts : List String := monthNames ++ shortMonthNames

/-- Try each alternative in order; an alternative succeeds when its (lower-case)
text consumes case-insensitively and the continuation `k` accepts the rest. -/
def firstAlt (k : String → List Char → Option α) : List String → List Char → Option α
  | [], _ => none
  | a :: as, l =>
    match eatCI a.data l with
    | some rest =>
      match k a rest with
      | some r => some r
      | none => firstAlt k as l
    | none => firstAlt k as l

/-- `\.?` directly before `\s+`: consuming the dot when present never needs
backtracking because a dot is not whitespace. -/
def eatOptDot (l : List Char) : List Char :=
  match l with
  | '.' :: rest => rest
  | _ => l

/-- `\s+` directly before a non-whitespace continuation: one or more whitespace
characters, consumed greedily. -/
def eatWs1 (l : List Char) : Option (List Char) :=
  match l with
  | c :: rest => if isWsChar c then some (rest.dropWhile isWsChar) else none
  | [] => none

/-- `(\d{1,2})` with regex backtracking: try two digits, falling back to one if
the continuation `k` rejects. -/
def eatD12 (k : Nat → List Char → Option α) (l : List Char) : Option α :=
  match l with
  | [] => none
  | c :: rest =>
    if c.isDigit then
      match rest with
      | c2 :: rest2 =>
        if c2.isDigit then
          tryOr (k (digitVal c * 10 + digitVal c2) rest2) (k (digitVal c) rest)
        else k (digitVal c) rest
      | [] => k (digitVal c) []
    else none

/-- `(?:st|nd|rd|th)?` (case-insensitive): try each suffix in order, then the
empty alternative, with the continuation `k`. -/
def eatOrdinalThen (k : List Char → Option α) (l : List Char) : Option α :=
  tryOr ((eatCI ['s', 't'] l).bind k) <|
    tryOr ((eatCI ['n', 'd'] l).bind k) <|
      tryOr ((eatCI ['r', 'd'] l).bind k) <|
        tryOr ((eatCI ['t', 'h'] l).bind k) (k l)

/-- Pattern 1 of `parseLooseDate` at one position:
`(month)\.?\s+(\d{1,2})(?:st|nd|rd|th)?,\s+(\d{4})`, case-insensitive.
Returns the (lower-cased) month capture, the day and the year. -/
def p1At (l : List Char) : Option (String × Nat × Nat) :=
  firstAlt (fun name rest0 =>
    (eatWs1 (eatOptDot rest0)).bind fun rest2 =>
      eatD12 (fun day rest3 =>
        eatOrdinalThen (fun rest4 =>
          match rest4 with
          | ',' :: rest5 =>
            (eatWs1 rest5).bind fun rest6 =>
              (takeDigitsAcc 4 0 rest6).map fun yr => (name, day, yr.1)
          | _ => none) rest3) rest2) monthAlts l

/-- Pattern 2 of `parseLooseDate` at one position:
`(\d{1,2})(?:st|nd|rd|th)?\s+(month)\.?\s+(\d{4})`, case-insensitive.
Returns the day, the (lower-cased) month capture and the year. -/
def p2At (l : List Char) : Option (Nat × String × Nat) :=
  eatD12 (fun day rest1 =>
    eatOrdinalThen (fun rest2 =>
      (eatWs1 rest2).bind fun rest3 =>
        firstAlt (fun name rest4 =>
          (eatWs1 (eatOptDot rest4)).bind fun rest6 =>
            (takeDigitsAcc 4 0 rest6).map fun yr => (day, name, yr.1)) monthAlts rest3)
      rest1) l

/-- Result of pattern 3: either the `YYYY-MM-DD`/`YYYY/MM/DD` alternative or the
ambiguous `NN/NN/YYYY` alternative. -/
inductive P3Res where
  | iso (y m d : Nat)
  | slash (a b y : Nat)
deriving DecidableEq

def isDateSep (c : Char) : Bool := c = '-' || c = '/'

/-- First alternative of pattern 3: `(\d{4})[-\/](\d{1,2})[-\/](\d{1,2})`. -/
def p3Alt1 (l : List Char) : Option (Nat × Nat × Nat) :=
  (takeDigitsAcc 4 0 l).bind fun yr =>
    match yr.2 with
    | [] => none
    | c :: r2 =>
      if isDateSep c then
        eatD12 (fun m r3 =>
          match r3 with
          | [] => none
          | c2 :: r4 =>
            if isDateSep c2 then eatD12 (fun d _ => some (yr.1, m, d)) r4 else none) r2
      else none

/-- Second alternative of pattern 3: `(\d{1,2})[-\/](\d{1,2})[-\/](\d{4})`. -/
def p3Alt2 (l : List Char) : Option (Nat × Nat × Nat) :=
  eatD12 (fun a r1 =>
    match r1 with
    | [] => none
    | c :: r2 =>
      if isDateSep c then
        eatD12 (fun b r3 =>
          match r3 with
          | [] => none
          | c2 :: r4 =>
            if isDateSep c2 then (takeDigitsAcc 4 0 r4).map fun yr => (a, b, yr.1)
            else none) r2
      else none) l

/-- Pattern 3 at one position: the two alternatives in source order. -/
def p3At (l : List Char) : Option P3Res :=
  tryOr ((p3Alt1 l).map fun t => P3Res.iso t.1 t.2.1 t.2.2)
    ((p3Alt2 l).map fun t => P3Res.slash t.1 t.2.1 t.2.2)

/-- `padStart(2, '0')` of a decimal numeral. -/
def pad2 (n : Nat) : String := if n < 10 then "0" ++ toString n else toString n

/-- The template `year-month-day` with the two-digit padding applied by
`parseLooseDate` to month and day (the year is interpolated unpadded). -/
def fmtYMD (y m d : Nat) : String := toString y ++ "-" ++ pad2 m ++ "-" ++ pad2 d

/-- Month-number lookup of `parseLooseDate`: abbreviations for captures of up to
three characters, full names otherwise; an unmatched name yields 0 from
`findIndex`+1 and is then defaulted to January. -/
def monthNum (name : String) : Nat :=
  let i? :=
    if name.length ≤ 3 then shortMonthNames.findIdx? (fun m => m == name)
    else monthNames.findIdx? (fun m => m == name)
  match i? with
  | some i => i + 1
  | none => 1

/-- `parseLooseDate` (src/index.ts 1810-1900): direct `new Date` parse guarded
by `isValidDate` (returning the input text unchanged), then patterns 1-3. -/
def parseLooseDate (currentYear : Nat) (text : String) : Option String :=
  if isValidDate currentYear text then some text
  else
    match scanList p1At text.data with
    | some (name, day, yr) => some (fmtYMD yr (monthNum name) day)
    | none =>
      match scanList p2At text.data with
      | some (day, name, yr) => some (fmtYMD yr (monthNum name) day)
      | none =>
        match scanList p3At text.data with
        | some (P3Res.iso y m d) => some (fmtYMD y m d)
        | some (P3Res.slash a b y) =>
          some (if 12 < a then fmtYMD y b a else fmtYMD y a b)
        | none => none

/-! ## Field-value payload builders (src/index.ts 995-1067) -/

/-- `s.substring(a, b)` (clamping behaviour of the JavaScript original). -/
def jsSubstring (s : String) (a b : Nat) : String :=
  String.mk ((s.data.drop a).take (b - a))

structure TextContent where
  content : String
deriving DecidableEq

structure TextObj where
  text : TextContent
deriving DecidableEq

/-- Shape `{rich_text: [{text: {content}}]}`. -/
structure RichTextProp where
  rich_text : List TextObj
deriving DecidableEq

/-- `createRichTextProperty` (src/index.ts 995-1005): truncates to Notion's
2000-character limit. -/
def createRichTextProperty (text : String) : RichTextProp :=
  ⟨[⟨⟨jsSubstring text 0 2000⟩⟩]⟩

structure SelectName where
  name : String
deriving DecidableEq

/-- Shape `{select: {name}}`. -/
structure SelectProp where
  select : SelectName
deriving DecidableEq

/-- Shape `{multi_select: [{name}, ...]}`. -/
structure MultiSelectProp where
  multi_select : List SelectName
deriving DecidableEq

/-- `createSelectProperty` (src/index.ts 1026-1032): truncates the option name
to 100 characters. -/
def createSelectProperty (name : String) : SelectProp :=
  ⟨⟨jsSubstring name 0 100⟩⟩

/-- `createMultiSelectProperty` (src/index.ts 1035-1041): truncates each option
name to 100 characters. -/
def createMultiSelectProperty (names : List String) : MultiSelectProp :=
  ⟨names.map fun name => ⟨jsSubstring name 0 100⟩⟩

/-- `padStart(4, '0')`-like padding used by `toISOString` for the year. -/
def pad4 (n : Nat) : String :=
  if n < 10 then "000" ++ toString n
  else if n < 100 then "00" ++ toString n
  else if n < 1000 then "0" ++ toString n
  else toString n

/-- `date.toISOString().split('T')[0]` for a date parsed from a date-only
string (such dates are UTC midnight, so the ISO date part is the date itself). -/
def isoDatePart (d : JsDate) : String :=
  pad4 d.year ++ "-" ++ pad2 d.month ++ "-" ++ pad2 d.day

structure DateStart where
  start : String
deriving DecidableEq

/-- Shape `{date: {start}}` / `{date: null}`. -/
structure DateProp where
  date : Option DateStart
deriving DecidableEq

/-- `createDateProperty` (src/index.ts 1008-1023): `new Date` parse guarded by
`isNaN`, returning `{date: null}` on failure; the surrounding `try`/`catch`
makes the function total. -/
def createDateProperty (dateStr : String) : DateProp :=
  match jsNewDate dateStr with
  | none => ⟨none⟩
  | some d => ⟨some ⟨isoDatePart d⟩⟩

/-- JavaScript `\w` (word character), for the `\b` boundaries of
`parseAuthors`' separator regex. -/
def isWordChar (c : Char) : Bool := c.isAlpha || c.isDigit || c = '_'

/-- There is a word boundary between `prev` (the previous character, if any)
and the letter `a` of a candidate `and` separator. -/
def boundaryBefore (prev : Option Char) : Bool :=
  match prev with
  | none => true
  | some p => !isWordChar p

/-- There is a word boundary after the `d` of a candidate `and` separator. -/
def boundaryAfter (rest : List Char) : Bool :=
  match rest with
  | [] => true
  | c :: _ => !isWordChar c

/-- Splitter for `parseAuthors`' regex `/,|\band\b|&|;/` (case-sensitive):
single-character separators `,` `&` `;`, and the word `and` between word
boundaries.  `fuel` bounds the scan steps; every step strictly consumes input,
so the wrapper's `l.length` is never exhausted. -/
def splitAuthorsGo (fuel : Nat) (prev : Option Char) (cur : List Char) :
    List Char → List (List Char)
  | [] => [cur.reverse]
  | c :: rest =>
    match fuel with
    | 0 => [(cur.reverse ++ c :: rest)]
    | fuel + 1 =>
      if c = ',' || c = '&' || c = ';' then
        cur.reverse :: splitAuthorsGo fuel (some c) [] rest
      else
        match rest with
        | 'n' :: 'd' :: rest2 =>
          if c = 'a' && boundaryBefore prev && boundaryAfter rest2 then
            cur.reverse :: splitAuthorsGo fuel (some 'd') [] rest2
          else splitAuthorsGo fuel (some c) (c :: cur) rest
        | _ => splitAuthorsGo fuel (some c) (c :: cur) rest

/-- `parseAuthors` (src/index.ts 1057-1067): split on the separators, trim,
drop empties; fall back to the whole text when nothing survives. -/
def parseAuthors (authorText : String) : List String :=
  if authorText = "" then []
  else
    let authors :=
      (((splitAuthorsGo authorText.data.length none [] authorText.data).map trimList).filter
        (fun t => t.length > 0)).map String.mk
    if authors.length > 0 then authors else [authorText]

/-! ## Structured-Data Reader: `sanitizeJsonString` (src/index.ts 1157-1205) -/

/-- Search for the closing `-->` of an HTML comment (the lazy `[\s\S]*?` of the
comment regex finds the first occurrence), returning the suffix after it. -/
def dropToClose : List Char → Option (List Char)
  | '-' :: '-' :: '>' :: rest => some rest
  | _ :: rest => dropToClose rest
  | [] => none

/-- `replace(/<!--[\s\S]*?-->/g, '')`: delete each comment (an unterminated
`<!--` is left in place, as the regex then fails to match at it).  `fuel`
bounds the scan steps; every step strictly consumes input. -/
def removeCommentsF (fuel : Nat) (l : List Char) : List Char :=
  match fuel with
  | 0 => l
  | fuel + 1 =>
    match l with
    | '<' :: '!' :: '-' :: '-' :: rest =>
      (match dropToClose rest with
       | some r => removeCommentsF fuel r
       | none => '<' :: removeCommentsF fuel ('!' :: '-' :: '-' :: rest))
    | c :: rest => c :: removeCommentsF fuel rest
    | [] => []

def removeComments (l : List Char) : List Char := removeCommentsF l.length l

/-- `replace(/,\s*([\]}])/g, '$1')`: a comma followed by optional whitespace
and a closing bracket is replaced by the bracket alone; at a failing position
the scan advances one character, as the regex engine does. -/
def removeTrailingCommasF (fuel : Nat) (l : List Char) : List Char :=
  match fuel with
  | 0 => l
  | fuel + 1 =>
    match l with
    | [] => []
    | c :: rest =>
      if c = ',' then
        match rest.dropWhile isWsChar with
        | b :: rest2 =>
          if b = ']' || b = '\x7d' then b :: removeTrailingCommasF fuel rest2
          else c :: removeTrailingCommasF fuel rest
        | [] => c :: removeTrailingCommasF fuel rest
      else c :: removeTrailingCommasF fuel rest

def removeTrailingCommas (l : List Char) : List Char := removeTrailingCommasF l.length l

/-- Identifier characters of the unquoted-key regex `[a-zA-Z0-9_$]`. -/
def isIdentChar (c : Char) : Bool := c.isAlpha || c.isDigit || c = '_' || c = '$'

/-- `replace(/([{,]\s*)([a-zA-Z0-9_$]+)\s*:/g, '$1"$2":')`: quote an unquoted
object key after `{` or `,` (the whitespace before the colon is dropped by the
replacement, which does not capture it). -/
def quoteKeysF (fuel : Nat) (l : List Char) : List Char :=
  match fuel with
  | 0 => l
  | fuel + 1 =>
    match l with
    | [] => []
    | c :: rest =>
      if c = '\x7b' || c = ',' then
        let ws := rest.takeWhile isWsChar
        let r1 := rest.dropWhile isWsChar
        let ident := r1.takeWhile isIdentChar
        let r2 := r1.dropWhile isIdentChar
        match ident, r2.dropWhile isWsChar with
        | _ :: _, ':' :: r4 => c :: (ws ++ '"' :: (ident ++ '"' :: ':' :: quoteKeysF fuel r4))
        | _, _ => c :: quoteKeysF fuel rest
      else c :: quoteKeysF fuel rest

def quoteKeys (l : List Char) : List Char := quoteKeysF l.length l

def singleQuoteChar : Char := Char.ofNat 39

def backslashChar : Char := '\\'

/-- The character loop of `sanitizeJsonString` (src/index.ts 1170-1190):
converts single-quoted strings to double-quoted, tracking whether the scan is
inside a double-quoted string (`inString`) or a single-quoted one
(`inSingle`); `prev` is the previous input character and `acc` the output so
far, reversed (so that `result.slice(0, -1)` is `acc.tail`). -/
def quoteLoop (inString inSingle : Bool) (prev : Option Char) (acc : List Char) :
    List Char → List Char
  | [] => acc.reverse
  | c :: rest =>
    if c = '"' && prev ≠ some backslashChar then
      quoteLoop (!inString) inSingle (some c) (c :: acc) rest
    else if c = singleQuoteChar && prev ≠ some backslashChar && !inString then
      quoteLoop inString (!inSingle) (some c) ('"' :: acc) rest
    else if inSingle && c = singleQuoteChar && prev = some backslashChar then
      quoteLoop inString inSingle (some c) (singleQuoteChar :: backslashChar :: acc.tail) rest
    else
      quoteLoop inString inSingle (some c) (c :: acc) rest

/-- `sanitizeJsonString` (src/index.ts 1157-1205): the three regex repairs, the
quote-conversion loop, then the top-level shape check on the trimmed result;
`none` models the `null` returns (the surrounding `try`/`catch` only makes the
function total). -/
def sanitizeJsonString (jsonString : String) : Option String :=
  let cleaned := quoteKeys (removeTrailingCommas (removeComments jsonString.data))
  let result := quoteLoop false false none [] cleaned
  let trimmed := trimList result
  if (trimmed.head? = some '\x7b' && trimmed.getLast? = some '\x7d') ||
      (trimmed.head? = some '[' && trimmed.getLast? = some ']') then
    some (String.mk trimmed)
  else none

/-! ## Batch Processor loop (`extract-url-metadata` handler, src/index.ts 570-725) -/

/-- One slice-and-recurse step of the batch loop for batch size `b + 1`:
`rows.slice(i, i + batchSize)` is the head batch, the delay is taken exactly
when `i + batchSize < rows.length`, i.e. when rows remain.  `Promise.all` over
the batch is modelled as an order-preserving total map: each row's processor
carries its own `try`/`catch`, so every row yields a status line and no row's
failure cancels or reorders its siblings. -/
def runBatchesAux (proc : α → String) (b : Nat) (fuel : Nat) :
    List α → List String × Nat
  | [] => ([], 0)
  | r :: rs =>
    match fuel with
    | 0 => ([], 0)
    | fuel + 1 =>
      let rest := rs.drop b
      let res := runBatchesAux proc b fuel rest
      ((r :: rs.take b).map proc ++ res.1, (if rest.isEmpty then 0 else 1) + res.2)

/-- The batches the loop forms (`response.results.slice(i, i + batchSize)`). -/
def jsBatchesAux (b : Nat) (fuel : Nat) : List α → List (List α)
  | [] => []
  | r :: rs =>
    match fuel with
    | 0 => []
    | fuel + 1 => (r :: rs.take b) :: jsBatchesAux b fuel (rs.drop b)

/-- Status lines (in row order) and number of inter-batch delays performed by
the batch loop.  A batch size of `0` makes the source loop diverge and is not
modelled (the claims use batch size 5); the fuel `rows.length` bounds the
batch count and is never exhausted since each batch consumes at least one
row. -/
def processAllRows (proc : α → String) (batchSize : Nat) (rows : List α) :
    List String × Nat :=
  match batchSize with
  | 0 => ([], 0)
  | b + 1 => runBatchesAux proc b rows.length rows

/-- Batch decomposition performed by the loop, under the same proviso. -/
def jsBatches (batchSize : Nat) (rows : List α) : List (List α) :=
  match batchSize with
  | 0 => []
  | b + 1 => jsBatchesAux b rows.length rows

/-! ## Author Validator (`validateExtractedAuthor`, src/index.ts 1495-1588) -/

/-- `replace(/\s+/g, ' ')`: collapse each maximal whitespace run to one
space. -/
def collapseWsF (fuel : Nat) (l : List Char) : List Char :=
  match fuel with
  | 0 => l
  | fuel + 1 =>
    match l with
    | [] => []
    | c :: rest =>
      if isWsChar c then ' ' :: collapseWsF fuel (rest.dropWhile isWsChar)
      else c :: collapseWsF fuel rest

def collapseWs (l : List Char) : List Char := collapseWsF l.length l

/-- `replace(/^by\s+/i, '')`: strip one leading `by` followed by whitespace. -/
def stripByRe (l : List Char) : List Char :=
  match (eatCI ['b', 'y'] l).bind eatWs1 with
  | some r => r
  | none => l

/-- The `cleanAuthor` normalisation of `validateExtractedAuthor`: strip a
leading `by`, collapse whitespace, trim, lower-case. -/
def cleanAuthorOf (author : String) : List Char :=
  (trimList (collapseWs (stripByRe author.data))).map lowerChar

/-- Splitter for `/,\s*|\s+and\s+/` (the multi-author split of
`validateExtractedAuthor`): a comma with trailing whitespace, or the word
`and` framed by whitespace runs. -/
def splitMultiGoF (fuel : Nat) (cur : List Char) : List Char → List (List Char)
  | [] => [cur.reverse]
  | c :: rest =>
    match fuel with
    | 0 => [(cur.reverse ++ c :: rest)]
    | fuel + 1 =>
      if c = ',' then cur.reverse :: splitMultiGoF fuel [] (rest.dropWhile isWsChar)
      else if isWsChar c then
        match rest.dropWhile isWsChar with
        | 'a' :: 'n' :: 'd' :: c2 :: rest3 =>
          if isWsChar c2 then
            cur.reverse :: splitMultiGoF fuel [] (rest3.dropWhile isWsChar)
          else splitMultiGoF fuel (c :: cur) rest
        | _ => splitMultiGoF fuel (c :: cur) rest
      else splitMultiGoF fuel (c :: cur) rest

def splitMultiGo (cur : List Char) (l : List Char) : List (List Char) :=
  splitMultiGoF l.length cur l

/-- `Math.ceil(n * 0.5)`. -/
def ceilHalf (n : Nat) : Nat := (n + 1) / 2

/-- Accumulator loop of `splitCh`. -/
def splitChGo (sep : Char) (cur : List Char) : List Char → List (List Char)
  | [] => [cur.reverse]
  | c :: rest =>
    if c = sep then cur.reverse :: splitChGo sep [] rest
    else splitChGo sep (c :: cur) rest

/-- `s.split(sep)` for a one-character separator string (as in
`singleAuthor.split(' ')`). -/
def splitCh (sep : Char) (l : List Char) : List (List Char) := splitChGo sep [] l

/-- Line terminators, which the JavaScript `.` wildcard does not match. -/
def isLineTermChar (c : Char) : Bool :=
  c = '\n' || c = '\r' || c = '\u2028' || c = '\u2029'

/-- Consume one regex unit per pattern character: `.` is the wildcard (any
character but a line terminator), every other character matches itself
case-insensitively (the `'i'` flag).  This is what the unescaped name parts of
the dynamically built author regex compile to when they contain no syntax
character other than `.`; patterns with the remaining syntax characters
(quantifiers, classes, escapes — including ones on which `new RegExp` throws)
are outside the model and excluded by hypothesis in the theorems. -/
def eatPat : List Char → List Char → Option (List Char)
  | [], l => some l
  | _ :: _, [] => none
  | p :: ps, c :: cs =>
    if p = '.' then (if isLineTermChar c then none else eatPat ps cs)
    else if lowerChar c = lowerChar p then eatPat ps cs else none

/-- `\s+` followed by the second part: one or more whitespace characters, then
`p2`, trying every run length.  The regex engine consumes the run greedily and
backtracks (a `.` in `p2` can itself match a space); for a boolean `test` only
the existence of a split matters, so the try order is irrelevant. -/
def wsPlusThen (p2 : List Char) : List Char → Bool
  | [] => false
  | c :: cs =>
    if isWsChar c then (eatPat p2 cs).isSome || wsPlusThen p2 cs else false

/-- One attempt of the dynamically built regex `new RegExp(p1 + '\s+' + p2,
'i')` at a fixed position: `p1`, a whitespace run, `p2`, with `.` in the parts
acting as the wildcard.  `p1`, `p2` come from `cleanAuthor` (lower-case). -/
def matchWsPairAt (p1 p2 l : List Char) : Bool :=
  match eatPat p1 l with
  | none => false
  | some rest => wsPlusThen p2 rest

/-- `new RegExp(p1 + '\s+' + p2, 'i').test(raw)`. -/
def regexTestWs (p1 p2 raw : List Char) : Bool :=
  (scanList (fun l => if matchWsPairAt p1 p2 l then some () else none) raw).isSome

/-- The significant-parts check shared by both branches of
`validateExtractedAuthor`: at least half of the parts of length ≥ 4 occur in
the raw page text, and there is at least one such part. -/
def significantOk (parts : List (List Char)) (raw : List Char) : Bool :=
  let sig := (parts.filter fun p => decide (p.length ≥ 4)).length
  let found := (parts.filter fun p => decide (p.length ≥ 4) && containsSub p raw).length
  decide (sig > 0) && decide (found ≥ ceilHalf sig)

/-- Whether one element of a multi-author list counts as found in the page
(the loop body at src/index.ts 1514-1551); elements shorter than 4 characters
are skipped (never counted). -/
def multiAuthorOk (a raw : List Char) : Bool :=
  if a.length < 4 then false
  else if containsSub [' '] a then
    match splitCh ' ' a with
    | [p1, p2] =>
      if p1.length ≤ 3 && p2.length ≤ 3 then
        if regexTestWs p1 p2 raw then true else significantOk [p1, p2] raw
      else significantOk [p1, p2] raw
    | parts => significantOk parts raw
  else decide (a.length ≥ 5) && containsSub a raw

/-- The single-author branch of `validateExtractedAuthor` (src/index.ts
1558-1587). -/
def singleAuthorOk (cleanAuthor raw : List Char) : Bool :=
  match splitCh ' ' cleanAuthor with
  | [p1, p2] =>
    if p1.length ≤ 3 && p2.length ≤ 3 then regexTestWs p1 p2 raw
    else significantOk [p1, p2] raw
  | parts => significantOk parts raw

/-- `validateExtractedAuthor` (src/index.ts 1495-1588). -/
def validateExtractedAuthor (author rawHtml : String) : Bool :=
  if author.length < 4 then false
  else
    let isMultipleAuthors := containsStr author "," || containsStr author " and "
    let cleanAuthor := cleanAuthorOf author
    if isMultipleAuthors then
      let authorList := splitMultiGo [] cleanAuthor
      let validCount := (authorList.filter fun a => multiAuthorOk a rawHtml.data).length
      decide (validCount ≥ ceilHalf authorList.length)
    else
      if !(containsSub [' '] cleanAuthor) then false
      else singleAuthorOk cleanAuthor rawHtml.data

/-! ## Publication extractor (`extractPublication`, src/index.ts 1903-2000)

The function reads a fixed set of values from the parsed document; those reads
form the document environment `PubDoc`.  `urlHost` embeds
`new URL(url).hostname` (`none` when the constructor throws). -/

/-- One found element of the header/logo selector cascade. -/
structure HeaderQ where
  isImg : Bool
  alt : Option String
  text : String

structure PubDoc where
  ogSiteName : Option String
  jsonLdPublishers : List String
  metaPublisher : Option String
  metaAppName : Option String
  metaOgSite : Option String
  headers : List HeaderQ
  urlHost : Option String

/-- JavaScript `a || b || ...` over attribute reads: the first truthy
(present and non-empty) value. -/
def firstTruthy : List (Option String) → Option String
  | [] => none
  | some s :: rest => if s = "" then firstTruthy rest else some s
  | none :: rest => firstTruthy rest

/-- The header/logo loop (src/index.ts 1958-1977): for each found element, an
image's short non-empty alt text wins, otherwise its short non-empty trimmed
text, otherwise the next element. -/
def headerPick : List HeaderQ → Option String
  | [] => none
  | h :: rest =>
    let altHit : Option String :=
      if h.isImg then
        match h.alt with
        | some a => if a ≠ "" && a.length < 50 then some a else none
        | none => none
      else none
    match altHit with
    | some a => some a
    | none =>
      let t := trimStr h.text
      if t ≠ "" && t.length < 50 then some t else headerPick rest

/-- `hostname.replace(/^www\./, '')`. -/
def stripWww (host : List Char) : List Char :=
  match host with
  | 'w' :: 'w' :: 'w' :: '.' :: rest => rest
  | _ => host

/-- `word.charAt(0).toUpperCase() + word.slice(1)`. -/
def capitalizeWord (w : List Char) : List Char :=
  match w with
  | [] => []
  | c :: rest => upperChar c :: rest

/-- The domain fallback of `extractPublication`: first dot-label of the
hostname with `www.` stripped, hyphens to spaces, each space-separated word
capitalised. -/
def formatDomain (host : String) : String :=
  let domain := stripWww host.data
  match domain.splitOn '.' with
  | p :: _ =>
    String.mk
      (List.intercalate [' ']
        (((p.map fun c => if c = '-' then ' ' else c).splitOn ' ').map capitalizeWord))
  | [] => String.mk domain

/-- Strategies 2-5 of `extractPublication` (split out so that strategy 1's
truthiness test reads like the source's `if (ogSiteName)`). -/
def extractPublicationRest (doc : PubDoc) : String :=
  match doc.jsonLdPublishers.find? (fun p => p ≠ "") with
  | some p => p
  | none =>
    match firstTruthy [doc.metaPublisher, doc.metaAppName, doc.metaOgSite] with
    | some m => m
    | none =>
      match headerPick doc.headers with
      | some t => t
      | none =>
        match doc.urlHost with
        | none => "Unknown Publication"
        | some host => formatDomain host

/-- `extractPublication` (src/index.ts 1903-2000): open-graph site name, then
JSON-LD publisher, then publisher meta tags, then header/logo text, then the
domain fallback (`"Unknown Publication"` when `new URL(url)` throws). -/
def extractPublication (doc : PubDoc) : String :=
  match doc.ogSiteName with
  | some s =>
    if s ≠ "" then s
    else extractPublicationRest doc
  | none => extractPublicationRest doc

/-! ## Author extractor (`extractAuthor`, src/index.ts 1208-1492)

`extractAuthor` reads the parsed document only through a fixed set of cheerio
queries; the results of those queries form the document environment
`AuthorDoc`.  The control flow — early returns, candidates assigned to
`authorStr` before validation, fall-through — is translated exactly; stages
pass the current `authorStr` along in a `Step` value (`ret` models an early
`return`, `fall` models falling through with the current `authorStr`).  Fields
abstracting a computation on page text (JSON-LD candidates, the by-pattern
regex capture, the hostname) are noted as such. -/

/-- `replace(/^by\s+|^byline:\s+|^author[s]?:\s+/i, '')`: the leading byline
prefixes stripped from container/selector text (alternatives in source
order). -/
def stripAuthorPrefixes (l : List Char) : List Char :=
  match
    tryOr ((eatCI ['b', 'y'] l).bind eatWs1) <|
      tryOr ((eatCI "byline:".data l).bind eatWs1) <|
        tryOr ((eatCI "authors:".data l).bind eatWs1)
          ((eatCI "author:".data l).bind eatWs1)
  with
  | some r => r
  | none => l

/-- `replace(/\s+and\s+/g, ', ')`. -/
def andToCommaF (fuel : Nat) (l : List Char) : List Char :=
  match fuel with
  | 0 => l
  | fuel + 1 =>
    match l with
    | [] => []
    | c :: rest =>
      if isWsChar c then
        match rest.dropWhile isWsChar with
        | 'a' :: 'n' :: 'd' :: c2 :: rest3 =>
          if isWsChar c2 then ',' :: ' ' :: andToCommaF fuel (rest3.dropWhile isWsChar)
          else c :: andToCommaF fuel rest
        | _ => c :: andToCommaF fuel rest
      else c :: andToCommaF fuel rest

def andToComma (l : List Char) : List Char := andToCommaF l.length l

/-- `replace(/\s*,\s*/g, ', ')`. -/
def commaSpaceNormF (fuel : Nat) (l : List Char) : List Char :=
  match fuel with
  | 0 => l
  | fuel + 1 =>
    match l with
    | [] => []
    | c :: rest =>
      if c = ',' then ',' :: ' ' :: commaSpaceNormF fuel (rest.dropWhile isWsChar)
      else if isWsChar c then
        match rest.dropWhile isWsChar with
        | ',' :: rest2 => ',' :: ' ' :: commaSpaceNormF fuel (rest2.dropWhile isWsChar)
        | _ => c :: commaSpaceNormF fuel rest
      else c :: commaSpaceNormF fuel rest

def commaSpaceNorm (l : List Char) : List Char := commaSpaceNormF l.length l

/-- The final clean-up of `extractAuthor` (src/index.ts 1482-1488):
`replace(/^(by|written by|author:)\s+/i, '')`, collapse whitespace, trim. -/
def cleanupAuthor (s : String) : String :=
  let l :=
    match
      tryOr ((eatCI ['b', 'y'] s.data).bind eatWs1) <|
        tryOr ((eatCI "written by".data s.data).bind eatWs1)
          ((eatCI "author:".data s.data).bind eatWs1)
    with
    | some r => r
    | none => s.data
  String.mk (trimList (collapseWs l))

/-- One found author container (src/index.ts 1280-1317): the trimmed-later
texts of its author links, and its full text. -/
structure ContainerQ where
  linkTexts : List String
  containerText : String

/-- The document environment read by `extractAuthor`.  `hostname` abstracts
`getHostnameFromHtml` (canonical/og:url parsing), `jsonLdAuthorCandidates` the
per-script `sanitizeJsonString`/`JSON.parse`/`extractAuthorFromJsonLd`
pipeline (`none` for a script that fails it), and `byPatternCapture` the first
capture group of the by-pattern regex over the scope text, when it matches. -/
structure AuthorDoc where
  html : String
  hostname : String
  pageAuthorsPresent : Bool
  pageAuthorsLinkTexts : List String
  nytBylinePresent : Bool
  nytBylineFirstText : String
  nytMetaByl : Option String
  authorContainers : List ContainerQ
  jsonLdAuthorCandidates : List (Option String)
  multiAuthorGroups : List (List String)
  relAuthorTexts : List String
  bylineSelectorTexts : List String
  byPatternCapture : Option String
  metaAuthor : Option String

/-- Result of one stage of `extractAuthor`: an early `return`, or fall-through
carrying the current `authorStr`. -/
inductive Step where
  | ret (s : String)
  | fall (s : String)

/-- The AP News site-specific extractor (src/index.ts 1222-1241): joins the
non-empty trimmed link texts of `.Page-authors` and returns them directly —
with no call to `validateExtractedAuthor`. -/
def apStage (doc : AuthorDoc) : Option String :=
  if containsStr doc.hostname "apnews.com" && doc.pageAuthorsPresent then
    let names := (doc.pageAuthorsLinkTexts.map trimStr).filter fun n => n ≠ ""
    if names.length > 0 then some (String.intercalate ", " names) else none
  else none

/-- The New York Times site-specific extractor (src/index.ts 1244-1266):
byline element text, else the `byl` meta tag stripped of `by`; returns early
only when the candidate validates, otherwise the candidate stays in
`authorStr` and the cascade continues. -/
def nytStage (doc : AuthorDoc) (rawHtml : String) (a0 : String) : Step :=
  if containsStr doc.hostname "nytimes.com" then
    let a1 := if doc.nytBylinePresent then trimStr doc.nytBylineFirstText else a0
    let a2 :=
      if a1 = "" then
        match doc.nytMetaByl with
        | some m => if m ≠ "" then trimStr (String.mk (stripByRe m.data)) else a1
        | none => a1
      else a1
    if a2 ≠ "" && validateExtractedAuthor a2 rawHtml then Step.ret a2 else Step.fall a2
  else Step.fall a0

/-- The author-container loop (src/index.ts 1280-1317): per container, the
joined link texts (assigned to `authorStr` before validation — a failed
candidate persists), then the normalised container text. -/
def containerFold (rawHtml : String) : List ContainerQ → String → Step
  | [], a => Step.fall a
  | cq :: rest, a =>
    let names := (cq.linkTexts.map trimStr).filter fun n => n ≠ "" && n.length > 2
    let a1 := if names.length > 0 then String.intercalate ", " names else a
    if names.length > 0 && validateExtractedAuthor (String.intercalate ", " names) rawHtml then
      Step.ret (String.intercalate ", " names)
    else
      let ct :=
        String.mk
          (trimList (commaSpaceNorm (andToComma
            (stripAuthorPrefixes (trimList cq.containerText.data)))))
      if ct ≠ "" && validateExtractedAuthor ct rawHtml then Step.ret ct
      else containerFold rawHtml rest a1

/-- The JSON-LD loop (src/index.ts 1320-1342): the first candidate that exists
and validates becomes `authorStr` (the loop breaks); failing candidates are
skipped. -/
def jsonLdFold (rawHtml : String) : List (Option String) → String → String
  | [], a => a
  | c :: rest, a =>
    match c with
    | some cand =>
      if cand ≠ "" && validateExtractedAuthor cand rawHtml then cand
      else jsonLdFold rawHtml rest a
    | none => jsonLdFold rawHtml rest a

/-- Per-element normalisation of the multi-author patterns (src/index.ts
1372-1379): trim, strip a leading `by`/`and`/comma, trim again. -/
def multiElemText (t : String) : String :=
  let t0 := (trimStr t).data
  let t1 :=
    match
      tryOr ((eatCI ['b', 'y'] t0).bind eatWs1) <|
        tryOr ((eatCI ['a', 'n', 'd'] t0).bind eatWs1)
          (match t0 with
           | ',' :: r => some (r.dropWhile isWsChar)
           | _ => none)
    with
    | some r => r
    | none => t0
  trimStr (String.mk t1)

/-- `/^(by|and|,)$/i.test(text)`. -/
def isJunkWord (t : String) : Bool :=
  lowerStr t = "by" || lowerStr t = "and" || lowerStr t = ","

/-- The multi-author-pattern loop (src/index.ts 1365-1391): groups with more
than one element yield a joined candidate, assigned before validation. -/
def multiFold (rawHtml : String) : List (List String) → String → Step
  | [], a => Step.fall a
  | es :: rest, a =>
    if es.length > 1 then
      let names := (es.map multiElemText).filter fun t => t ≠ "" && t.length > 2 && !isJunkWord t
      if names.length > 0 then
        let j := String.intercalate ", " names
        if validateExtractedAuthor j rawHtml then Step.ret j else multiFold rawHtml rest j
      else multiFold rawHtml rest a
    else multiFold rawHtml rest a

/-- The `rel="author"` stage (src/index.ts 1394-1417): several matches join and
are assigned before validation; a single match is validated before being
assigned (and never returns early). -/
def relStage (rawHtml : String) (texts : List String) (a : String) : Step :=
  if texts.length > 1 then
    let names := (texts.map trimStr).filter fun t => t ≠ ""
    if names.length > 0 then
      let j := String.intercalate ", " names
      if validateExtractedAuthor j rawHtml then Step.ret j else Step.fall j
    else Step.fall a
  else
    match texts with
    | [t] =>
      let tt := trimStr t
      if validateExtractedAuthor tt rawHtml then Step.fall tt else Step.fall a
    | _ => Step.fall a

/-- The byline-selector loop (src/index.ts 1420-1448): first found element
whose trimmed text is long enough, is not a bare `by`, and whose normalised
form validates. -/
def selectorsFold (rawHtml : String) : List String → Option String
  | [] => none
  | t :: rest =>
    let tt := trimStr t
    if tt ≠ "" && tt.length > 3 && !(lowerStr tt = "by") then
      let pt :=
        String.mk (trimList (commaSpaceNorm (andToComma (stripAuthorPrefixes tt.data))))
      if validateExtractedAuthor pt rawHtml then some pt else selectorsFold rawHtml rest
    else selectorsFold rawHtml rest

/-- The by-pattern stage (src/index.ts 1452-1466): the regex capture, trimmed,
`and` normalised to commas, validated. -/
def byStage (rawHtml : String) (cap : Option String) : Option String :=
  match cap with
  | some m =>
    let t := String.mk (andToComma (trimList m.data))
    if validateExtractedAuthor t rawHtml then some t else none
  | none => none

/-- The meta-tag stage (src/index.ts 1469-1479): the first truthy meta author
attribute, validated. -/
def metaStage (rawHtml : String) : Option String → Option String
  | some m => if m ≠ "" && validateExtractedAuthor m rawHtml then some m else none
  | none => none

/-- `extractAuthor` (src/index.ts 1208-1492).  `rawHtml` is
`$.html().toLowerCase()`.  Note the return after the JSON-LD stage
(src/index.ts 1344) fires for any non-empty `authorStr`, including candidates
a previous stage assigned despite failed validation, and skips the final
clean-up. -/
def extractAuthor (doc : AuthorDoc) : String :=
  let rawHtml := lowerStr doc.html
  match apStage doc with
  | some r => r
  | none =>
    match nytStage doc rawHtml "" with
    | Step.ret r => r
    | Step.fall a1 =>
      match containerFold rawHtml doc.authorContainers a1 with
      | Step.ret r => r
      | Step.fall a2 =>
        let a3 := jsonLdFold rawHtml doc.jsonLdAuthorCandidates a2
        if a3 ≠ "" then a3
        else
          match multiFold rawHtml doc.multiAuthorGroups a3 with
          | Step.ret r => r
          | Step.fall a4 =>
            match relStage rawHtml doc.relAuthorTexts a4 with
            | Step.ret r => r
            | Step.fall a5 =>
              let a6 :=
                if a5 = "" then
                  match selectorsFold rawHtml doc.bylineSelectorTexts with
                  | some x => x
                  | none => a5
                else a5
              let a7 :=
                if a6 = "" then
                  match byStage rawHtml doc.byPatternCapture with
                  | some x => x
                  | none => a6
                else a6
              let a8 :=
                if a7 = "" then
                  match metaStage rawHtml doc.metaAuthor with
                  | some x => x
                  | none => a7
                else a7
              if a8 ≠ "" then cleanupAuthor a8 else a8

/-! ## Helper lemmas -/

theorem charEqOfToNat {a b : Char} (h : a.toNat = b.toNat) : a = b :=
  Char.eq_of_val_eq (UInt32.ext h)

theorem isValidDate_of_unparseable {s : String} (cy : Nat) (h : jsNewDate s = none) :
    isValidDate cy s = false := by
  unfold isValidDate
  rw [h]

/-! ## Claim theorems -/

/-- C1 (amended): under the modelled ECMA-262 direct parse, `parseLooseDate`
maps `"January 5th, 2021"`, `"5 Jan 2021"`, `"2021-01-05"` and `"01/05/2021"`
to `"2021-01-05"` (the third by returning the input unchanged) and
`"not a date"` to `null`; but `"2021-13-40"` is returned unchanged as
`"2021-13-40"`, not `null`: the direct parse rejects it and the numeric
pattern 3 then matches it with no range validation.  `cy` is the current year
(`2021 ≤ cy` makes the direct parse of `"2021-01-05"` plausible). -/
theorem parseLooseDate_spec (cy : Nat) (hcy : 2021 ≤ cy) :
    parseLooseDate cy "January 5th, 2021" = some "2021-01-05" ∧
    parseLooseDate cy "5 Jan 2021" = some "2021-01-05" ∧
    parseLooseDate cy "2021-01-05" = some "2021-01-05" ∧
    parseLooseDate cy "01/05/2021" = some "2021-01-05" ∧
    parseLooseDate cy "not a date" = none ∧
    parseLooseDate cy "2021-13-40" = some "2021-13-40" := by
  refine ⟨?_, ?_, ?_, ?_, ?_, ?_⟩
  · unfold parseLooseDate
    rw [isValidDate_of_unparseable cy (by decide)]
    decide
  · unfold parseLooseDate
    rw [isValidDate_of_unparseable cy (by decide)]
    decide
  · have hv : isValidDate cy "2021-01-05" = true := by
      unfold isValidDate
      rw [show jsNewDate "2021-01-05" = some ⟨2021, 1, 5⟩ from by decide]
      simp only [Bool.and_eq_true, decide_eq_true_eq]
      exact ⟨by omega, hcy⟩
    unfold parseLooseDate
    rw [hv]
    simp
  · unfold parseLooseDate
    rw [isValidDate_of_unparseable cy (by decide)]
    decide
  · unfold parseLooseDate
    rw [isValidDate_of_unparseable cy (by decide)]
    decide
  · unfold parseLooseDate
    rw [isValidDate_of_unparseable cy (by decide)]
    decide

/-- C1 witness: the amended statement instantiated at current year 2026. -/
theorem parseLooseDate_spec_witness :
    2021 ≤ 2026 ∧
    (parseLooseDate 2026 "January 5th, 2021" = some "2021-01-05" ∧
     parseLooseDate 2026 "5 Jan 2021" = some "2021-01-05" ∧
     parseLooseDate 2026 "2021-01-05" = some "2021-01-05" ∧
     parseLooseDate 2026 "01/05/2021" = some "2021-01-05" ∧
     parseLooseDate 2026 "not a date" = none ∧
     parseLooseDate 2026 "2021-13-40" = some "2021-13-40") :=
  ⟨by decide, parseLooseDate_spec 2026 (by decide)⟩

/-- C1 counterexample: the claim says `parseLooseDate "2021-13-40"` is `null`;
the code returns the out-of-range string unchanged (pattern 3 has no range
validation, and every `new Date` implementation rejects month 13 so the
guarded direct parse cannot intercept it). -/
theorem parseLooseDate_claim_counterexample :
    parseLooseDate 2026 "2021-13-40" = some "2021-13-40" ∧
    parseLooseDate 2026 "2021-13-40" ≠ none := by
  constructor
  · decide
  · decide

/-- C2: `isValidDate` accepts a string exactly when the (modelled) `new Date`
parse succeeds with a year in `[1995, current year]`; any parseable date with
a year outside that range is rejected. -/
theorem isValidDate_spec :
    (∀ (cy : Nat) (s : String),
        isValidDate cy s = true ↔
          ∃ d : JsDate, jsNewDate s = some d ∧ 1995 ≤ d.year ∧ d.year ≤ cy) ∧
    (∀ (cy : Nat) (s : String) (d : JsDate),
        jsNewDate s = some d → (d.year < 1995 ∨ cy < d.year) →
        isValidDate cy s = false) := by
  constructor
  · intro cy s
    unfold isValidDate
    cases h : jsNewDate s with
    | none => simp
    | some d => simp [h]
  · intro cy s d h hy
    unfold isValidDate
    rw [h]
    rw [Bool.eq_false_iff]
    intro hc
    simp only [Bool.and_eq_true, decide_eq_true_eq] at hc
    omega

/-- C2 witness: a parseable date before 1995 is rejected at current year
2026. -/
theorem isValidDate_spec_witness :
    jsNewDate "1990-06-01" = some ⟨1990, 6, 1⟩ ∧ isValidDate 2026 "1990-06-01" = false :=
  ⟨by decide,
   isValidDate_spec.2 2026 "1990-06-01" ⟨1990, 6, 1⟩ (by decide) (by decide)⟩

/-- C10: `createDateProperty` is total (modelled without exceptions; the
source wraps the body in `try`/`catch`), returns `{date: null}` exactly when
the string does not parse as a valid date, and otherwise returns
`{date: {start: d}}` with `d` the ISO calendar-date part of the parsed
date. -/
theorem createDateProperty_spec (s : String) :
    (createDateProperty s = ⟨none⟩ ↔ jsNewDate s = none) ∧
    (∀ d : JsDate, jsNewDate s = some d → createDateProperty s = ⟨some ⟨isoDatePart d⟩⟩) := by
  constructor
  · unfold createDateProperty
    cases h : jsNewDate s with
    | none => simp
    | some d => simp
  · intro d h
    unfold createDateProperty
    rw [h]

/-- C10 witness: both branches at concrete inputs. -/
theorem createDateProperty_spec_witness :
    jsNewDate "not a date" = none ∧ createDateProperty "not a date" = ⟨none⟩ ∧
    createDateProperty "2021-01-05" = ⟨some ⟨"2021-01-05"⟩⟩ :=
  ⟨by decide, (createDateProperty_spec "not a date").1.mpr (by decide), by
    have h := (createDateProperty_spec "2021-01-05").2 ⟨2021, 1, 5⟩ (by decide)
    rw [show isoDatePart ⟨2021, 1, 5⟩ = "2021-01-05" from by decide] at h
    exact h⟩

/-- C5: `sanitizeJsonString` returns a repaired string only when the trimmed
result starts with `{` and ends with `}`, or starts with `[` and ends with
`]` (first conjunct); the remaining conjuncts exhibit the repairs on concrete
inputs: an embedded HTML comment and a trailing comma removed, an unquoted
key quoted, single-quoted strings converted to double quotes, an escaped
single quote preserved, a single quote inside a double-quoted string left
alone, and `none` (never an exception — the function is total) on any other
shape. -/
theorem sanitizeJsonString_spec :
    (∀ s t : String, sanitizeJsonString s = some t →
        (t.data.head? = some '\x7b' ∧ t.data.getLast? = some '\x7d') ∨
        (t.data.head? = some '[' ∧ t.data.getLast? = some ']')) ∧
    sanitizeJsonString "<!-- c -->\x7b\"a\": 1,\x7d" = some "\x7b\"a\": 1\x7d" ∧
    sanitizeJsonString "\x7ba: 1\x7d" = some "\x7b\"a\": 1\x7d" ∧
    sanitizeJsonString "\x7b\x27k\x27: \x27v\x27\x7d" = some "\x7b\"k\": \"v\"\x7d" ∧
    sanitizeJsonString "\x7b\x27a\\\x27b\x27: 1\x7d" = some "\x7b\"a\\\x27b\": 1\x7d" ∧
    sanitizeJsonString "\x7b\"a\x27b\": 1\x7d" = some "\x7b\"a\x27b\": 1\x7d" ∧
    sanitizeJsonString "hello" = none := by
  refine ⟨?_, by decide, by decide, by decide, by decide, by decide, by decide⟩
  intro s t h
  simp only [sanitizeJsonString] at h
  split at h
  · rename_i hcond
    have ht : t.data = trimList (quoteLoop false false none []
        (quoteKeys (removeTrailingCommas (removeComments s.data)))) := by
      have := Option.some.inj h
      rw [← this]
    rw [ht]
    simpa using hcond
  · exact absurd h (by simp)

/-- C5 witness: the shape property applied to a concrete repaired array. -/
theorem sanitizeJsonString_spec_witness :
    (("[1, 2]" : String).data.head? = some '\x7b' ∧
        ("[1, 2]" : String).data.getLast? = some '\x7d') ∨
    (("[1, 2]" : String).data.head? = some '[' ∧
        ("[1, 2]" : String).data.getLast? = some ']') :=
  sanitizeJsonString_spec.1 "  [1, 2,]  " "[1, 2]" (by decide)

/-- C7: the batch loop over 7 rows with batch size 5 forms exactly the two
batches `5 + 2` with exactly one inter-batch delay, and the status lines are
the rows' individual results in row order for every total row processor
`proc` — the per-row `try`/`catch` of the source makes the row body total
(a failing row yields its own status line), so a failure of row 3 leaves
rows 4-7 processed and reported, as the closing concrete conjunct shows. -/
theorem extractUrlMetadata_batch_spec {α : Type} (proc : α → String)
    (r1 r2 r3 r4 r5 r6 r7 : α) :
    jsBatches 5 [r1, r2, r3, r4, r5, r6, r7] = [[r1, r2, r3, r4, r5], [r6, r7]] ∧
    processAllRows proc 5 [r1, r2, r3, r4, r5, r6, r7] =
      ([proc r1, proc r2, proc r3, proc r4, proc r5, proc r6, proc r7], 1) ∧
    processAllRows (fun n => if n = 3 then "Row 3: Failed to extract metadata" else
        "Row " ++ toString n ++ ": ok") 5 [1, 2, 3, 4, 5, 6, 7] =
      (["Row 1: ok", "Row 2: ok", "Row 3: Failed to extract metadata", "Row 4: ok",
        "Row 5: ok", "Row 6: ok", "Row 7: ok"], 1) := by
  refine ⟨?_, ?_, by decide⟩
  · simp [jsBatches, jsBatchesAux]
  · simp [processAllRows, runBatchesAux]

/-- C8: the payload builders truncate before writing: rich-text content to at
most 2000 characters, select and multi-select option names to at most 100
characters each. -/
theorem truncation_spec :
    (∀ s : String, ∀ t ∈ (createRichTextProperty s).rich_text,
        t.text.content.length ≤ 2000) ∧
    (∀ name : String, (createSelectProperty name).select.name.length ≤ 100) ∧
    (∀ names : List String, ∀ o ∈ (createMultiSelectProperty names).multi_select,
        o.name.length ≤ 100) := by
  refine ⟨?_, ?_, ?_⟩
  · intro s t ht
    simp only [createRichTextProperty, List.mem_singleton] at ht
    subst ht
    simp only [jsSubstring]
    show ((s.data.drop 0).take 2000).length ≤ 2000
    simp [List.length_take]
  · intro name
    simp only [createSelectProperty, jsSubstring]
    show ((name.data.drop 0).take 100).length ≤ 100
    simp [List.length_take]
  · intro names o ho
    simp only [createMultiSelectProperty, List.mem_map] at ho
    obtain ⟨a, -, ha⟩ := ho
    subst ha
    simp only [jsSubstring]
    show ((a.data.drop 0).take 100).length ≤ 100
    simp [List.length_take]

/-- C8 witness: the truncation bounds at concrete payloads. -/
theorem truncation_spec_witness :
    (TextObj.mk (TextContent.mk "hello")).text.content.length ≤ 2000 ∧
    (createSelectProperty "hello").select.name.length ≤ 100 ∧
    (SelectName.mk "a").name.length ≤ 100 :=
  ⟨truncation_spec.1 "hello" ⟨⟨"hello"⟩⟩ (by decide),
   truncation_spec.2.1 "hello",
   truncation_spec.2.2 ["a", "b"] ⟨"a"⟩ (by decide)⟩

/-- C9: building a `multi_select` payload from
`parseAuthors "Jane Doe and John Smith"` yields exactly the two choices
`"Jane Doe"` and `"John Smith"`, in that order. -/
theorem parseAuthors_multiselect_roundtrip :
    (createMultiSelectProperty (parseAuthors "Jane Doe and John Smith")).multi_select.map
        SelectName.name = ["Jane Doe", "John Smith"] := by
  decide

theorem firstTruthy_ne_empty {l : List (Option String)} {s : String}
    (h : firstTruthy l = some s) : s ≠ "" := by
  induction l with
  | nil => simp [firstTruthy] at h
  | cons o rest ih =>
    cases o with
    | none => exact ih h
    | some v =>
      simp only [firstTruthy] at h
      split at h
      · exact ih h
      · rename_i hv
        cases h
        exact hv

theorem headerPick_ne_empty {l : List HeaderQ} {s : String}
    (h : headerPick l = some s) : s ≠ "" := by
  induction l with
  | nil => simp [headerPick] at h
  | cons q rest ih =>
    simp only [headerPick] at h
    split at h
    · rename_i a ha
      cases h
      split at ha
      · split at ha
        · split at ha
          · rename_i hcond
            cases ha
            simp only [Bool.and_eq_true, decide_eq_true_eq] at hcond
            exact hcond.1
          · exact absurd ha (by simp)
        · exact absurd ha (by simp)
      · exact absurd ha (by simp)
    · split at h
      · rename_i hcond
        cases h
        simp only [Bool.and_eq_true, decide_eq_true_eq] at hcond
        exact hcond.1
      · exact ih h

/-- C6 (amended): when every higher-confidence strategy fails,
`extractPublication` falls back to the capitalised-and-spaced first label of
the hostname with a leading `www.` stripped (`formatDomain`), or
`"Unknown Publication"` when the URL cannot be parsed; the result is non-empty
for every document whose URL either fails to parse or has a hostname whose
formatted first label is non-empty — but not unconditionally: see the
counterexample with hostname `"www."`. -/
theorem extractPublication_spec :
    (∀ doc : PubDoc,
        (∀ h : String, doc.urlHost = some h → formatDomain h ≠ "") →
        extractPublication doc ≠ "") ∧
    (∀ host : String,
        extractPublication ⟨none, [], none, none, none, [], some host⟩ = formatDomain host) ∧
    extractPublication ⟨none, [], none, none, none, [], none⟩ = "Unknown Publication" ∧
    formatDomain "www.example-news.com" = "Example News" := by
  refine ⟨?_, ?_, by decide, by decide⟩
  · intro doc hhost
    have hrest : extractPublicationRest doc ≠ "" := by
      unfold extractPublicationRest
      split
      · rename_i p hp
        have := List.find?_some hp
        simpa using this
      · split
        · rename_i m hm
          exact firstTruthy_ne_empty hm
        · split
          · rename_i t ht
            exact headerPick_ne_empty ht
          · split
            · decide
            · rename_i host hh
              exact hhost host hh
    unfold extractPublication
    split
    · rename_i s hs
      split
      · assumption
      · exact hrest
    · exact hrest
  · intro host
    rfl

/-- C6 witness: a document with no strategy hits and a regular hostname gets a
non-empty publication. -/
theorem extractPublication_spec_witness :
    extractPublication ⟨none, [], none, none, none, [], some "example.com"⟩ ≠ "" := by
  refine extractPublication_spec.1 _ ?_
  intro h hh
  have hx : "example.com" = h := by injection hh
  subst hx
  decide

/-- C6 counterexample: the claim says the extractor always returns a non-empty
string, but for a document with no metadata and the URL `http://www./` (a
valid URL whose WHATWG hostname is the trailing-dot domain `"www."`) the
domain fallback strips `www.` to the empty label and returns `""`. -/
theorem extractPublication_claim_counterexample :
    extractPublication ⟨none, [], none, none, none, [], some "www."⟩ = "" := by
  decide

/-- C4 (amended): the AP News site-specific extractor returns its joined link
texts with no validation at all (first conjunct); a document with no byline
markup yields the empty string (second conjunct); and a candidate offered only
by the lowest-confidence meta-tag strategy is returned (after clean-up) only
if it passes the Author Validator, otherwise the result is empty (third
conjunct).  Candidates assigned to `authorStr` before validation (NYT byline,
container links, multi-author patterns, multiple `rel=author`) are moreover
not discarded on validation failure — see the counterexample. -/
theorem extractAuthor_spec :
    (∀ doc : AuthorDoc,
        containsStr doc.hostname "apnews.com" = true →
        doc.pageAuthorsPresent = true →
        (doc.pageAuthorsLinkTexts.map trimStr).filter (fun n => n ≠ "") ≠ [] →
        extractAuthor doc =
          String.intercalate ", "
            ((doc.pageAuthorsLinkTexts.map trimStr).filter (fun n => n ≠ ""))) ∧
    (∀ html hostname : String,
        extractAuthor
          ⟨html, hostname, false, [], false, "", none, [], [], [], [], [], none, none⟩
          = "") ∧
    (∀ html m : String, m ≠ "" →
        extractAuthor
          ⟨html, "", false, [], false, "", none, [], [], [], [], [], none, some m⟩ =
          if validateExtractedAuthor m (lowerStr html) then cleanupAuthor m else "") := by
  refine ⟨?_, ?_, ?_⟩
  · intro doc h1 h2 h3
    have hap : apStage doc =
        some (String.intercalate ", "
          ((doc.pageAuthorsLinkTexts.map trimStr).filter (fun n => n ≠ ""))) := by
      unfold apStage
      rw [h1, h2]
      simp only [Bool.and_self, if_true]
      rw [if_pos (List.length_pos.mpr h3)]
    unfold extractAuthor
    rw [hap]
  · intro html hostname
    have hns : containsStr hostname "nytimes.com" = true ∨
        containsStr hostname "nytimes.com" = false := by
      cases containsStr hostname "nytimes.com" <;> simp
    rcases hns with hc | hc <;>
      simp [extractAuthor, apStage, nytStage, containerFold, jsonLdFold, multiFold,
        relStage, selectorsFold, byStage, metaStage, hc]
  · intro html m hm
    have hns : containsStr "" "nytimes.com" = false := by decide
    have hap : containsStr "" "apnews.com" = false := by decide
    by_cases hv : validateExtractedAuthor m (lowerStr html) = true
    · simp [extractAuthor, apStage, nytStage, containerFold, jsonLdFold, multiFold,
        relStage, selectorsFold, byStage, metaStage, hns, hap, hm, hv]
    · rw [Bool.not_eq_true] at hv
      simp [extractAuthor, apStage, nytStage, containerFold, jsonLdFold, multiFold,
        relStage, selectorsFold, byStage, metaStage, hns, hap, hm, hv]

/-- C4 witness: the three conjuncts applied at concrete documents. -/
theorem extractAuthor_spec_witness :
    extractAuthor
      ⟨"ann bee", "apnews.com", true, ["Ann Bee"], false, "", none, [], [], [], [], [],
        none, none⟩ =
      String.intercalate ", " (((["Ann Bee"] : List String).map trimStr).filter
        (fun n => n ≠ "")) ∧
    extractAuthor
      ⟨"page", "host", false, [], false, "", none, [], [], [], [], [], none, none⟩ = "" ∧
    extractAuthor
      ⟨"by jane doe", "", false, [], false, "", none, [], [], [], [], [], none,
        some "Jane Doe"⟩ =
      (if validateExtractedAuthor "Jane Doe" (lowerStr "by jane doe") then
        cleanupAuthor "Jane Doe" else "") :=
  ⟨extractAuthor_spec.1
      ⟨"ann bee", "apnews.com", true, ["Ann Bee"], false, "", none, [], [], [], [], [],
        none, none⟩ (by decide) rfl (by decide),
   extractAuthor_spec.2.1 "page" "host",
   extractAuthor_spec.2.2 "by jane doe" "Jane Doe" (by decide)⟩

/-- C4 counterexample: the claim says every candidate — site-specific
extractors included — passes the validator before being returned, and a
failing candidate is discarded.  The AP News extractor returns `"Zq Xy"`
without validating it (and the validator indeed rejects it against this
page), and an NYT byline candidate `"Qyz Wvx"` that fails validation is
nevertheless returned by the fall-through return after the JSON-LD stage
instead of being discarded. -/
theorem extractAuthor_claim_counterexample :
    extractAuthor
      ⟨"", "apnews.com", true, ["Zq Xy"], false, "", none, [], [], [], [], [],
        none, none⟩ = "Zq Xy" ∧
    validateExtractedAuthor "Zq Xy" (lowerStr "") = false ∧
    extractAuthor
      ⟨"", "nytimes.com", false, [], true, "Qyz Wvx", none, [], [], [], [], [],
        none, none⟩ = "Qyz Wvx" ∧
    validateExtractedAuthor "Qyz Wvx" (lowerStr "") = false := by
  refine ⟨by decide, by decide, by decide, by decide⟩

end NotionMeta
